import Mathlib

/-!
Verification of the market-data fetcher, rate limiter, AI-response parse
step, trade logging and the standalone price helper of this repository
(`app.py`, `crypto_prices.py`), against its natural-language specification.

Modelling conventions, used throughout:
* Python floats (prices, percentages, `time.time()` seconds) are embedded
  as exact rationals `ℚ`; every operation the embedded code performs on
  them (`+`, `-`, `*`, `/`, comparisons, `round`) is exact there, so the
  idealisation only removes binary floating-point rounding noise.
* JSON values (`json.loads` results, Flask `request.json` bodies) are the
  inductive `JVal`; Python dicts are association lists in insertion order,
  with a repeated key overwriting the stored value in place, as
  `json.loads` and dict assignment do.
* Fallible I/O (the upstream HTTP fetch) is an explicit `Option` argument:
  `some payload` is a transport-level success whose body decoded, `none`
  is a `requests` transport error or a JSON decode error, the two
  exception classes `get_market_prices_coingecko` catches.
* Stateful code becomes explicit state passing: one call to
  `get_market_prices_coingecko` is a step function on the module-level
  state (the `api_call_timestamps` deque and `market_prices_cache`), and a
  sequence of calls is a fold of that step over a list of
  (arrival time, upstream outcome) pairs.
* `time.sleep(w)` is idealised as exact: after the sleep the re-read
  clock shows exactly `arrival + w`, and the zero-duration HTTP request
  happens at that same instant.
-/

/-! ## JSON values (the result type of `json.loads`) -/

/-- A decoded JSON value, as `json.loads` produces it: `obj` is a Python
dict in insertion order (`insertKV` realises last-wins key assignment).
The tokens `NaN`/`Infinity`/`-Infinity`, which Python's decoder also
accepts, have no exact-rational counterpart and are not modelled. -/
inductive JVal where
  | null
  | bool (b : Bool)
  | num (q : ℚ)
  | str (s : String)
  | arr (elems : List JVal)
  | obj (fields : List (String × JVal))

/-- The brace characters, named once. -/
def lbrace : Char := Char.ofNat 123

def rbrace : Char := Char.ofNat 125

def quoteChar : Char := Char.ofNat 34

def backslashChar : Char := Char.ofNat 92

/-- Python dict assignment `d[k] = v`: an existing key keeps its position
and gets the new value, a new key is appended. -/
def insertKV {α : Type} (fs : List (String × α)) (k : String) (v : α) : List (String × α) :=
  match fs with
  | [] => [(k, v)]
  | (k0, v0) :: rest => if k0 = k then (k, v) :: rest else (k0, v0) :: insertKV rest k v

/-- Python `key in d` for a dict. -/
def hasKey {α : Type} (fs : List (String × α)) (k : String) : Bool :=
  fs.any (fun p => p.1 == k)

/-! ## A `json.loads` model

A recursive-descent decoder for the JSON grammar (strict mode, as the
source calls it): objects, arrays, strings with the standard escapes,
numbers without a redundant leading zero, `true`/`false`/`null`.
Surrogate pairing of `\uXXXX` escapes is idealised to the raw code unit.
Recursion is on an explicit fuel bounded by the input length. -/

def jsonWs : List Char := [' ', '\t', '\n', '\r']

def skipWs (l : List Char) : List Char := l.dropWhile (fun c => jsonWs.contains c)

/-- One escape character after a backslash (`\uXXXX` handled separately). -/
def escChar (c : Char) : Option Char :=
  if c = quoteChar then some quoteChar
  else if c = backslashChar then some backslashChar
  else if c = '/' then some '/'
  else if c = 'b' then some (Char.ofNat 8)
  else if c = 'f' then some (Char.ofNat 12)
  else if c = 'n' then some '\n'
  else if c = 'r' then some '\r'
  else if c = 't' then some '\t'
  else none

def hexVal (c : Char) : Option ℕ :=
  if '0' ≤ c ∧ c ≤ '9' then some (c.toNat - 48)
  else if 'a' ≤ c ∧ c ≤ 'f' then some (c.toNat - 87)
  else if 'A' ≤ c ∧ c ≤ 'F' then some (c.toNat - 70)
  else none

/-- The characters of a JSON string body, up to the closing quote.
Returns (decoded characters, rest after the closing quote). Raw control
characters below 0x20 are rejected, as the strict decoder does. -/
def strChars : List Char → Option (List Char × List Char)
  | [] => none
  | c :: r =>
    if c = quoteChar then some ([], r)
    else if c = backslashChar then
      match r with
      | [] => none
      | e :: r2 =>
        if e = 'u' then
          match r2 with
          | h1 :: h2 :: h3 :: h4 :: r3 =>
            match hexVal h1, hexVal h2, hexVal h3, hexVal h4 with
            | some a, some b, some c3, some d =>
              (strChars r3).map (fun pr => (Char.ofNat (((a * 16 + b) * 16 + c3) * 16 + d) :: pr.1, pr.2))
            | _, _, _, _ => none
          | _ => none
        else
          match escChar e with
          | some ec => (strChars r2).map (fun pr => (ec :: pr.1, pr.2))
          | none => none
    else if c.toNat < 32 then none
    else (strChars r).map (fun pr => (c :: pr.1, pr.2))

def isDigit (c : Char) : Bool := decide ('0' ≤ c) && decide (c ≤ '9')

def digitsToNat (l : List Char) : ℕ :=
  l.foldl (fun acc c => acc * 10 + (c.toNat - 48)) 0

/-- Assemble a JSON number from its parts: sign, integer digits, fraction
digits, exponent sign and digits. The value is exact:
`± mantissa · 10^(exp − #fraction digits)`. -/
def numValue (neg : Bool) (ip fp : List Char) (expNeg : Bool) (ep : List Char) : ℚ :=
  let mantissa : ℕ := digitsToNat (ip ++ fp)
  let e : ℤ := (if expNeg then -(digitsToNat ep : ℤ) else (digitsToNat ep : ℤ)) - (fp.length : ℤ)
  let base : ℚ :=
    if 0 ≤ e then ((mantissa * 10 ^ e.toNat : ℕ) : ℚ)
    else ((mantissa : ℕ) : ℚ) / ((10 ^ (-e).toNat : ℕ) : ℚ)
  if neg then -base else base

/-- Parse one JSON number starting at `l` (which starts with `-` or a
digit). JSON forbids a redundant leading zero in the integer part, demands
at least one digit there, and at least one digit after `.` and after an
exponent marker. -/
def parseNum (l : List Char) : Option (ℚ × List Char) :=
  let (neg, l1) := match l with
    | c :: r => if c = '-' then (true, r) else (false, l)
    | [] => (false, l)
  let ip := l1.takeWhile isDigit
  let l2 := l1.dropWhile isDigit
  if ip.isEmpty then none
  else if 1 < ip.length ∧ ip.headD '0' = '0' then none
  else
    let (fp, l3) := match l2 with
      | c :: r => if c = '.' then (r.takeWhile isDigit, r.dropWhile isDigit) else ([], l2)
      | [] => ([], l2)
    let fracDot : Bool := match l2 with
      | c :: _ => c = '.'
      | [] => false
    if fracDot ∧ fp.isEmpty then none
    else
      let (hasExp, l4) := match l3 with
        | c :: r => if c = 'e' ∨ c = 'E' then (true, r) else (false, l3)
        | [] => (false, l3)
      if hasExp then
        let (expNeg, l5) := match l4 with
          | c :: r => if c = '-' then (true, r) else if c = '+' then (false, r) else (false, l4)
          | [] => (false, l4)
        let ep := l5.takeWhile isDigit
        let l6 := l5.dropWhile isDigit
        if ep.isEmpty then none
        else some (numValue neg ip fp expNeg ep, l6)
      else some (numValue neg ip fp false [], l3)

/-- Parser modes: a value, the fields of an object after `{` or `,`, the
elements of an array after `[` or `,`. -/
inductive PMode where
  | val
  | objRest (acc : List (String × JVal))
  | arrRest (acc : List JVal)

/-- The decoder core, structurally recursive on fuel. -/
def pstep : ℕ → PMode → List Char → Option (JVal × List Char)
  | 0, _, _ => none
  | fuel + 1, PMode.val, l =>
    match skipWs l with
    | [] => none
    | c :: r =>
      if c = lbrace then
        match skipWs r with
        | c2 :: r2 => if c2 = rbrace then some (JVal.obj [], r2) else pstep fuel (PMode.objRest []) r
        | [] => none
      else if c = '[' then
        match skipWs r with
        | c2 :: r2 => if c2 = ']' then some (JVal.arr [], r2) else pstep fuel (PMode.arrRest []) r
        | [] => none
      else if c = quoteChar then
        (strChars r).map (fun pr => (JVal.str ⟨pr.1⟩, pr.2))
      else if c = 't' then
        match r with
        | 'r' :: 'u' :: 'e' :: r2 => some (JVal.bool true, r2)
        | _ => none
      else if c = 'f' then
        match r with
        | 'a' :: 'l' :: 's' :: 'e' :: r2 => some (JVal.bool false, r2)
        | _ => none
      else if c = 'n' then
        match r with
        | 'u' :: 'l' :: 'l' :: r2 => some (JVal.null, r2)
        | _ => none
      else
        (parseNum (c :: r)).map (fun pr => (JVal.num pr.1, pr.2))
  | fuel + 1, PMode.objRest acc, l =>
    match skipWs l with
    | c :: r =>
      if c = quoteChar then
        match strChars r with
        | some (ks, r2) =>
          match skipWs r2 with
          | c2 :: r3 =>
            if c2 = ':' then
              match pstep fuel PMode.val r3 with
              | some (v, r4) =>
                let acc2 := insertKV acc ⟨ks⟩ v
                match skipWs r4 with
                | c3 :: r5 =>
                  if c3 = ',' then pstep fuel (PMode.objRest acc2) r5
                  else if c3 = rbrace then some (JVal.obj acc2, r5)
                  else none
                | [] => none
              | none => none
            else none
          | [] => none
        | none => none
      else none
    | [] => none
  | fuel + 1, PMode.arrRest acc, l =>
    match pstep fuel PMode.val l with
    | some (v, r) =>
      let acc2 := acc ++ [v]
      match skipWs r with
      | c :: r2 =>
        if c = ',' then pstep fuel (PMode.arrRest acc2) r2
        else if c = ']' then some (JVal.arr acc2, r2)
        else none
      | [] => none
    | none => none

/-- `json.loads`: decode the whole string, allowing surrounding
whitespace, rejecting trailing content. `none` models a raised
`json.JSONDecodeError`. -/
def jsonLoads (s : String) : Option JVal :=
  match pstep (2 * s.length + 2) PMode.val s.data with
  | some (v, rest) => if (skipWs rest).isEmpty then some v else none
  | none => none

/-! ## The delimited-block search of `generate_analysis`

`re.search(r"(?s)(.*?)```json\n({.*?})\n```(.*)", text)`: with the leading
lazy group the whole match starts at position 0, the lazy quantifiers give
the earliest fence-opening position that can be completed, and for it the
earliest closing position; group 2 spans from its `{` to the first `}`
that is directly followed by a newline and three backticks. -/

def fenceOpenChars : List Char := ("```json\n").data ++ [lbrace]

def closeChars : List Char := rbrace :: ("\n```").data

/-- Earliest occurrence of the opening pattern: returns (text before it,
text from its `{` on). -/
def findOpen : List Char → Option (List Char × List Char)
  | [] => none
  | c :: cs =>
    if fenceOpenChars.isPrefixOf (c :: cs) then some ([], (c :: cs).drop 8)
    else
      match findOpen cs with
      | some (pre, r) => some (c :: pre, r)
      | none => none

/-- Earliest occurrence of the closing pattern after the `{`: returns
(characters strictly inside the braces, text after the closing fence). -/
def findClose : List Char → Option (List Char × List Char)
  | [] => none
  | c :: cs =>
    if closeChars.isPrefixOf (c :: cs) then some ([], (c :: cs).drop 5)
    else
      match findClose cs with
      | some (mid, post) => some (c :: mid, post)
      | none => none

/-- The regex search, as (text before the fence, group 2 = the brace-to-
brace block, text after the closing fence); `none` when no match. If the
earliest opening fence has no closing pattern anywhere after it, no later
opening fence has one either (the closing positions available to a later
opening are a subset), so the whole search fails — trying only the first
opening is faithful to the backtracking engine. -/
def findJsonBlock (s : String) : Option (String × String × String) :=
  match findOpen s.data with
  | some (pre, r) =>
    match r with
    | c :: rest =>
      match findClose rest with
      | some (mid, post) => some (⟨pre⟩, ⟨c :: (mid ++ [rbrace])⟩, ⟨post⟩)
      | none => none
    | [] => none
  | none => none

/-! ## The parse step of `generate_analysis` (app.py lines 323-398)

Only the structured payload `analysis_data` is modelled; the accompanying
free-text `ai_analysis_text` (and its header-stripping `re.sub`) carries
no claim. The three failure paths — no delimited block, block that fails
to decode, decoded block missing a required key — build character-for-
character the same fallback dict in the source, here `fallbackData`. -/

def requiredKeys : List String :=
  ["signal", "confidence", "entry", "tp1", "tp2", "tp3", "sl", "rr_ratio"]

/-- Round half to even at the fourth decimal place: Python's
`round(x, 4)`, exact over rationals. -/
def roundHalfEven (x : ℚ) : ℤ :=
  if x - ⌊x⌋ < 1 / 2 then ⌊x⌋
  else if 1 / 2 < x - ⌊x⌋ then ⌊x⌋ + 1
  else if ⌊x⌋ % 2 = 0 then ⌊x⌋ else ⌊x⌋ + 1

def pyRound4 (q : ℚ) : ℚ := ((roundHalfEven (q * 10000) : ℤ) : ℚ) / 10000

/-- The fallback payload the source builds (three times, identically) from
the caller-supplied `current_price`. -/
def fallbackData (current_price : ℚ) : List (String × JVal) :=
  [("signal", JVal.str "NEUTRAL"),
   ("confidence", JVal.str "N/A"),
   ("entry", JVal.num (pyRound4 current_price)),
   ("tp1", JVal.num (pyRound4 (current_price * 1.001))),
   ("tp2", JVal.num (pyRound4 (current_price * 1.002))),
   ("tp3", JVal.num (pyRound4 (current_price * 1.003))),
   ("sl", JVal.num (pyRound4 (current_price * 0.999))),
   ("rr_ratio", JVal.str "1:1.0")]

/-- `analysis_data` as the source computes it. A successfully decoded
block always starts with `{`, hence decodes to an object when it decodes
at all (`jsonLoads_brace_obj` below); the `some _` catch-all for
non-object values is unreachable. -/
def parseAnalysisData (raw : String) (current_price : ℚ) : List (String × JVal) :=
  match findJsonBlock raw with
  | some (_, json_str, _) =>
    match jsonLoads json_str with
    | some (JVal.obj fs) =>
      if requiredKeys.all (fun k => hasKey fs k) then fs
      else fallbackData current_price
    | _ => fallbackData current_price
  | none => fallbackData current_price

/-- The valid-path outcome in isolation: `some fs` exactly when a block
was found, decoded, and carried every required key. -/
def parseOutcome (raw : String) : Option (List (String × JVal)) :=
  match findJsonBlock raw with
  | some (_, json_str, _) =>
    match jsonLoads json_str with
    | some (JVal.obj fs) =>
      if requiredKeys.all (fun k => hasKey fs k) then some fs else none
    | _ => none
  | none => none

/-! ## Market data fetcher (app.py lines 106-202)

Module-level configuration and state, then one call of
`get_market_prices_coingecko` as a step function. The upstream payload is
taken well-typed (price and 24h-change fields rational when present): a
payload with a non-numeric price would raise an uncaught `TypeError` at
`price * change_24hr`, a path outside every claim. -/

def SUPPORTED_CRYPTOS : List (String × String) :=
  [("BTC/USD", "bitcoin"),
   ("ETH/USD", "ethereum"),
   ("SOL/USD", "solana"),
   ("XRP/USD", "ripple"),
   ("ADA/USD", "cardano"),
   ("DOGE/USD", "dogecoin"),
   ("RVN/USD", "ravencoin")]

def CACHE_DURATION : ℚ := 10

def MAX_CALLS_PER_MINUTE : ℕ := 45

def ONE_MINUTE : ℚ := 60

/-- One entry of the processed mapping. -/
structure Quote where
  price : ℚ
  change : ℚ
  percent_change : ℚ

/-- One coin's record in the decoded upstream body: the `usd` price and
the `usd_24h_change` field, each possibly absent. -/
structure CoinRec where
  usd : Option ℚ
  usd_24h_change : Option ℚ

/-- The decoded upstream body: CoinGecko id to record. -/
def UpstreamData : Type := List (String × CoinRec)

/-- Lines 164-183: the entry built for one configured pair from the
upstream body's record for its CoinGecko id. -/
def quoteOf (r : Option CoinRec) : Quote :=
  match r with
  | some r0 =>
    match r0.usd with
    | some price =>
      let change_24hr := r0.usd_24h_change.getD 0
      { price := price, change := price * change_24hr / 100, percent_change := change_24hr }
    | none => { price := 0, change := 0, percent_change := 0 }
  | none => { price := 0, change := 0, percent_change := 0 }

/-- Lines 163-183: the processed `"PAIR/USD"`-keyed mapping. -/
def processPayload (data : UpstreamData) : List (String × Quote) :=
  SUPPORTED_CRYPTOS.map (fun p => (p.1, quoteOf (List.lookup p.2 data)))

/-- The module-level mutable state: the `api_call_timestamps` deque
(front first) and `market_prices_cache` (`none` = the initial empty dict,
`some (data, timestamp)` once both keys are set). -/
structure GState where
  timestamps : List ℚ
  cache : Option (List (String × Quote) × ℚ)

def GState.init : GState := { timestamps := [], cache := none }

/-- Lines 134-135: pop expired timestamps from the front. -/
def evictTs (ts : List ℚ) (current_time : ℚ) : List ℚ :=
  ts.dropWhile (fun t => decide (t < current_time - ONE_MINUTE))

/-- Lines 138-143: the clock value after the rate-limit wait (the arrival
time itself when the window is below quota or the computed wait is not
positive). Arithmetic stays inside the taken branch. -/
def admitTime (ts1 : List ℚ) (current_time : ℚ) : ℚ :=
  if MAX_CALLS_PER_MINUTE ≤ ts1.length then
    if 0 < ONE_MINUTE - (current_time - ts1.headD 0) then
      current_time + (ONE_MINUTE - (current_time - ts1.headD 0))
    else current_time
  else current_time

/-- What one call returns and leaves behind: the new module state, the
returned mapping, whether the body issued the upstream HTTP request,
whether a timestamp was appended to the window, and the clock value when
the body ran (arrival plus any rate-limit wait). -/
structure FetchOut where
  state : GState
  result : List (String × Quote)
  calledUpstream : Bool
  appended : Bool
  finish : ℚ

/-- The cache-miss tail of the call (lines 149-195): issue the request;
on success append `time.time()` to the window, process, overwrite the
cache wholesale and return the fresh mapping; on a transport or decode
error return the last cached data if any, else the empty dict, recording
nothing. -/
def fetchMiss (ts1 : List ℚ) (cache : Option (List (String × Quote) × ℚ)) (now : ℚ)
    (upstream : Option UpstreamData) : FetchOut :=
  match upstream with
  | some data =>
    let processed := processPayload data
    { state := { timestamps := ts1 ++ [now], cache := some (processed, now) },
      result := processed, calledUpstream := true, appended := true, finish := now }
  | none =>
    { state := { timestamps := ts1, cache := cache },
      result := (match cache with | some (d, _) => d | none => []),
      calledUpstream := true, appended := false, finish := now }

/-- One call of `get_market_prices_coingecko` arriving at `current_time`:
evict, wait if the window is full, then serve the cache if it is fresh at
the post-wait clock, else run the fetch body. -/
def get_market_prices_coingecko (st : GState) (current_time : ℚ)
    (upstream : Option UpstreamData) : FetchOut :=
  let ts1 := evictTs st.timestamps current_time
  let now := admitTime ts1 current_time
  match st.cache with
  | some (d, ct) =>
    if now - ct < CACHE_DURATION then
      { state := { timestamps := ts1, cache := st.cache },
        result := d, calledUpstream := false, appended := false, finish := now }
    else fetchMiss ts1 st.cache now upstream
  | none => fetchMiss ts1 none now upstream

/-- A sequence of calls: each step runs on the state the previous one
left. -/
def runFetches (st : GState) : List (ℚ × Option UpstreamData) → List FetchOut
  | [] => []
  | (a, u) :: rest =>
    get_market_prices_coingecko st a u ::
      runFetches (get_market_prices_coingecko st a u).state rest

/-- A chronologically valid trace: each call arrives no earlier than the
previous call finished (the calls are sequential; `t0` bounds the first
arrival from below). -/
def chronB (t0 : ℚ) (st : GState) : List (ℚ × Option UpstreamData) → Bool
  | [] => true
  | (a, u) :: rest =>
    decide (t0 ≤ a) &&
      chronB (get_market_prices_coingecko st a u).finish
        (get_market_prices_coingecko st a u).state rest

/-- Per-step window hygiene along a trace: at each call's admission check
the eviction keeps exactly the timestamps within one window of the
arrival, and every retained timestamp lies in `[arrival − window,
arrival]`. -/
def StepsOK (st : GState) : List (ℚ × Option UpstreamData) → Prop
  | [] => True
  | (a, u) :: rest =>
    (evictTs st.timestamps a =
        st.timestamps.filter (fun t => decide (a - ONE_MINUTE ≤ t)) ∧
      ∀ t ∈ evictTs st.timestamps a, a - ONE_MINUTE ≤ t ∧ t ≤ a) ∧
    StepsOK (get_market_prices_coingecko st a u).state rest

/-- The clock values at which a trace's calls recorded a timestamp into
the window (exactly its successful upstream fetches). -/
def appendedTimes (outs : List FetchOut) : List ℚ :=
  (outs.filter (fun o => o.appended)).map (fun o => o.finish)

/-- Consecutive elements at least `CACHE_DURATION` apart. -/
def Gaps10 : List ℚ → Prop
  | [] => True
  | [_] => True
  | x :: y :: rest => x + CACHE_DURATION ≤ y ∧ Gaps10 (y :: rest)

/-! ## Trade logging (app.py lines 411-443)

The request body is `none` for a missing/empty body (`if not data` is
also true of the empty dict). Python's `float(...)` raises `ValueError`
on an unparsable string (caught, 400) and `TypeError` on `None`, lists
and dicts (caught only by the blanket handler, 500); `sqlite3` rejects
list/dict parameter values (`InterfaceError`) and `None` violates the
columns' NOT NULL constraints (`IntegrityError`), both reaching the
blanket handler, 500. The row id and the `datetime.now()` timestamp
carry no claim and are not modelled. -/

inductive PyErr where
  | valueError
  | typeError

/-- The numeric forms Python's `float(str)` accepts, restricted to
finite decimal notation: optional sign, digits with an optional point
(at least one digit overall), optional exponent. The `inf`/`nan` words
and underscore separators have no claim and are not modelled. -/
def pyFloatOfString (s : String) : Option ℚ :=
  let l := skipWs s.data
  let (neg, l1) := match l with
    | c :: r => if c = '-' then (true, r) else if c = '+' then (false, r) else (false, l)
    | [] => (false, l)
  let ip := l1.takeWhile isDigit
  let l2 := l1.dropWhile isDigit
  let (fp, l3) := match l2 with
    | c :: r => if c = '.' then (r.takeWhile isDigit, r.dropWhile isDigit) else ([], l2)
    | [] => ([], l2)
  if ip.isEmpty ∧ fp.isEmpty then none
  else
    let (hasExp, l4) := match l3 with
      | c :: r => if c = 'e' ∨ c = 'E' then (true, r) else (false, l3)
      | [] => (false, l3)
    if hasExp then
      let (expNeg, l5) := match l4 with
        | c :: r => if c = '-' then (true, r) else if c = '+' then (false, r) else (false, l4)
        | [] => (false, l4)
      let ep := l5.takeWhile isDigit
      let l6 := l5.dropWhile isDigit
      if ep.isEmpty ∨ ¬ (skipWs l6).isEmpty then none
      else some (numValue neg ip fp expNeg ep)
    else if (skipWs l3).isEmpty then some (numValue neg ip fp false []) else none

/-- Python's `float(x)` on a JSON value: numbers pass through, booleans
are the integers 0/1, numeric strings parse, other strings raise
`ValueError`, and `None`/lists/dicts raise `TypeError`. -/
def pyFloat : JVal → Except PyErr ℚ
  | JVal.num q => Except.ok q
  | JVal.bool b => Except.ok (if b then 1 else 0)
  | JVal.str s =>
    match pyFloatOfString s with
    | some q => Except.ok q
    | none => Except.error PyErr.valueError
  | _ => Except.error PyErr.typeError

/-- `d[k]` after a presence check (the `getD` default is unreachable). -/
def dGet (d : List (String × JVal)) (k : String) : JVal :=
  (List.lookup k d).getD JVal.null

/-- A value `sqlite3` can bind into a TEXT NOT NULL column. -/
def sqliteStorable : JVal → Bool
  | JVal.str _ => true
  | JVal.num _ => true
  | JVal.bool _ => true
  | _ => false

def requiredFields : List String :=
  ["pair", "entry_price", "exit_price", "profit_loss", "trade_type"]

/-- What `/log_trade` answers: 201 with the stored row's values, 400, or
500. -/
inductive LogResult where
  | created (pair : JVal) (entry_price exit_price profit_loss : ℚ) (trade_type : JVal)
  | badRequest
  | serverError

/-- `log_trade` on a present, non-`None` body: presence checks on the
five required fields, `float` conversions of the three numeric ones in
source order, then the INSERT with `pair` and `trade_type` taken
verbatim from the request. -/
def log_trade_body (d : List (String × JVal)) : LogResult :=
  if d.isEmpty then LogResult.badRequest
    else if ¬ (requiredFields.all (fun f => hasKey d f)) then LogResult.badRequest
    else
      match pyFloat (dGet d "entry_price") with
      | Except.error PyErr.valueError => LogResult.badRequest
      | Except.error PyErr.typeError => LogResult.serverError
      | Except.ok entry_price =>
        match pyFloat (dGet d "exit_price") with
        | Except.error PyErr.valueError => LogResult.badRequest
        | Except.error PyErr.typeError => LogResult.serverError
        | Except.ok exit_price =>
          match pyFloat (dGet d "profit_loss") with
          | Except.error PyErr.valueError => LogResult.badRequest
          | Except.error PyErr.typeError => LogResult.serverError
          | Except.ok profit_loss =>
            if sqliteStorable (dGet d "pair") && sqliteStorable (dGet d "trade_type") then
              LogResult.created (dGet d "pair") entry_price exit_price profit_loss
                (dGet d "trade_type")
            else LogResult.serverError

/-- `log_trade`: `if not data` rejects a missing body (and, through
`log_trade_body`, an empty one) with 400. -/
def log_trade (data : Option (List (String × JVal))) : LogResult :=
  match data with
  | none => LogResult.badRequest
  | some d => log_trade_body d

/-! ## The standalone helper `crypto_prices.get_crypto_prices`

The upstream argument is `none` for a transport or decode failure
(`requests` exceptions and `json.JSONDecodeError` are caught before the
per-symbol loop runs) and `some data` for a decoded object body. Inside
the loop, `float(...)` and `datetime.fromtimestamp(...)` can raise on
ill-typed field values; the blanket `except Exception` then returns the
mapping built so far — in the model, the loop stops and returns its
accumulator. The `strftime` formatting of the timestamp carries no claim;
the raw epoch seconds are kept. -/

structure CoinInfo where
  id : String
  vs_currency : String

def coin_map : List (String × CoinInfo) :=
  [("BTC/USD", { id := "bitcoin", vs_currency := "usd" }),
   ("ETH/USD", { id := "ethereum", vs_currency := "usd" }),
   ("SOL/USD", { id := "solana", vs_currency := "usd" }),
   ("XRP/USD", { id := "ripple", vs_currency := "usd" }),
   ("ADA/USD", { id := "cardano", vs_currency := "usd" }),
   ("DOGE/USD", { id := "dogecoin", vs_currency := "usd" }),
   ("RVN/USD", { id := "ravencoin", vs_currency := "usd" })]

/-- One stored entry: the price and the raw `last_updated_at` seconds. -/
structure CPrice where
  price : ℚ
  last_updated_at : ℚ

/-- `datetime.fromtimestamp(x)`: accepts ints, floats and booleans,
raises `TypeError` otherwise. -/
def tsSeconds : JVal → Option ℚ
  | JVal.num q => some q
  | JVal.bool b => some (if b then 1 else 0)
  | _ => none

/-- The key-presence test the loop performs on one coin's decoded record
(`vs_currency in data[coin_id]`, `'last_updated_at' in data[coin_id]`);
the records of this endpoint are objects. -/
def jHasKey (v : JVal) (k : String) : Bool :=
  match v with
  | JVal.obj fs => hasKey fs k
  | _ => false

def jGet (v : JVal) (k : String) : JVal :=
  match v with
  | JVal.obj fs => dGet fs k
  | _ => JVal.null

/-- What one loop iteration does with its symbol: skip it (unconfigured,
absent from the body, or missing a needed field — the `else` / warning
paths), abort the loop (a conversion raised), or store an entry. -/
inductive CStepRes where
  | skip
  | abort
  | store (entry : CPrice)

/-- One iteration's decision for `symbol` (lines 61-73): the symbol must
be configured, its id present in the body with the quote currency and
`last_updated_at` keys; then `float(...)` of the price or
`datetime.fromtimestamp(...)` of the timestamp may still raise. -/
def cryptoStep (data : List (String × JVal)) (symbol : String) : CStepRes :=
  match List.lookup symbol coin_map with
  | none => CStepRes.skip
  | some info =>
    match List.lookup info.id data with
    | none => CStepRes.skip
    | some coinVal =>
      if jHasKey coinVal info.vs_currency && jHasKey coinVal "last_updated_at" then
        match pyFloat (jGet coinVal info.vs_currency) with
        | Except.error _ => CStepRes.abort
        | Except.ok price =>
          match tsSeconds (jGet coinVal "last_updated_at") with
          | none => CStepRes.abort
          | some ts => CStepRes.store { price := price, last_updated_at := ts }
      else CStepRes.skip

/-- The per-symbol loop (lines 60-73). An abort returns the accumulator
built so far (the exception propagates to the blanket handler, which
returns `all_crypto_data`). -/
def cryptoLoop (data : List (String × JVal)) :
    List String → List (String × CPrice) → List (String × CPrice)
  | [], acc => acc
  | symbol :: rest, acc =>
    match cryptoStep data symbol with
    | CStepRes.skip => cryptoLoop data rest acc
    | CStepRes.abort => acc
    | CStepRes.store entry => cryptoLoop data rest (insertKV acc symbol entry)

structure CryptoOut where
  data : List (String × CPrice)
  calledUpstream : Bool

/-- `get_crypto_prices`: collect the configured ids; with none, return
the empty mapping without any HTTP request; otherwise issue the request
and run the loop on a decoded body, or return the empty
mapping-built-so-far on a transport/decode failure. -/
def get_crypto_prices (symbols_list : List String)
    (upstream : Option (List (String × JVal))) : CryptoOut :=
  let valid_coin_ids :=
    symbols_list.filterMap (fun s => (List.lookup s coin_map).map (fun i => i.id))
  if valid_coin_ids.isEmpty then { data := [], calledUpstream := false }
  else
    match upstream with
    | some data => { data := cryptoLoop data symbols_list [], calledUpstream := true }
    | none => { data := [], calledUpstream := true }

/-! ## Helper lemmas -/

theorem lookup_processPayload (data : UpstreamData) (pair id : String)
    (h : (pair, id) ∈ SUPPORTED_CRYPTOS) :
    List.lookup pair (processPayload data) = some (quoteOf (List.lookup id data)) := by
  simp only [SUPPORTED_CRYPTOS, List.mem_cons, List.not_mem_nil, or_false,
    Prod.mk.injEq] at h
  rcases h with ⟨h1, h2⟩ | ⟨h1, h2⟩ | ⟨h1, h2⟩ | ⟨h1, h2⟩ | ⟨h1, h2⟩ | ⟨h1, h2⟩ | ⟨h1, h2⟩ <;>
    subst h1 <;> subst h2 <;> rfl

theorem parseAnalysisData_eq_outcome (raw : String) (p : ℚ) :
    parseAnalysisData raw p = (parseOutcome raw).getD (fallbackData p) := by
  unfold parseAnalysisData parseOutcome
  split
  · split
    · split <;> rfl
    · rfl
  · rfl

theorem parseOutcome_keys (raw : String) (fs : List (String × JVal))
    (h : parseOutcome raw = some fs) :
    requiredKeys.all (fun k => hasKey fs k) = true := by
  unfold parseOutcome at h
  split at h
  · split at h
    · split at h
      · rename_i hk
        obtain rfl : _ = fs := by injection h
        exact hk
      · exact absurd h (by simp)
    · exact absurd h (by simp)
  · exact absurd h (by simp)

theorem roundHalfEven_intCast (n : ℤ) : roundHalfEven ((n : ℤ) : ℚ) = n := by
  unfold roundHalfEven
  rw [Int.floor_intCast]
  norm_num

theorem roundHalfEven_nonneg (x : ℚ) (hx : 0 ≤ x) : 0 ≤ roundHalfEven x := by
  have hf : (0 : ℤ) ≤ ⌊x⌋ := Int.le_floor.mpr (by exact_mod_cast hx)
  unfold roundHalfEven
  split
  · exact hf
  · split
    · omega
    · split <;> omega

theorem pyRound4_nonneg (q : ℚ) (hq : 0 ≤ q) : 0 ≤ pyRound4 q := by
  unfold pyRound4
  have h : 0 ≤ roundHalfEven (q * 10000) :=
    roundHalfEven_nonneg _ (by positivity)
  positivity

theorem le_admitTime (ts1 : List ℚ) (a : ℚ) : a ≤ admitTime ts1 a := by
  unfold admitTime
  split
  · split
    · linarith
    · exact le_refl a
  · exact le_refl a

theorem lookup_cons_eq_if {α : Type} (k2 k0 : String) (v0 : α) (rest : List (String × α)) :
    List.lookup k2 ((k0, v0) :: rest) = if k2 = k0 then some v0 else List.lookup k2 rest := by
  rcases eq_or_ne k2 k0 with h | h
  · subst h
    simp [List.lookup_cons]
  · simp [List.lookup_cons, beq_false_of_ne h, h]

theorem lookup_insertKV {α : Type} (fs : List (String × α)) (k k2 : String) (v : α) :
    List.lookup k2 (insertKV fs k v) = if k2 = k then some v else List.lookup k2 fs := by
  induction fs with
  | nil =>
    simp only [insertKV]
    rw [lookup_cons_eq_if]
  | cons p rest ih =>
    obtain ⟨k0, v0⟩ := p
    simp only [insertKV]
    split
    · rename_i hk
      subst hk
      rcases eq_or_ne k2 k0 with h | h
      · simp [h, lookup_cons_eq_if]
      · simp [h, lookup_cons_eq_if]
    · rename_i hk
      rcases eq_or_ne k2 k0 with h | h
      · subst h
        have hne : k2 ≠ k := fun hc => hk (hc ▸ rfl)
        simp [lookup_cons_eq_if, hne]
      · simp [lookup_cons_eq_if, h, ih]

/-! ## C1, C4, C8 -/

/-- C1: for every successful upstream fetch, the processed mapping has
exactly one entry per configured symbol, in configuration order; a symbol
whose CoinGecko id carries a numeric price maps to
`{price, change = price·percent/100, percent_change}` with the percent
defaulted to 0 when absent; a symbol whose id is missing from the body or
lacks the `usd` field maps to the zero-valued quote; and the upstream body
`{"bitcoin": {"usd": 50000, "usd_24h_change": 2.0}}` yields for BTC/USD
the quote `{price: 50000, change: 1000, percent_change: 2}`. -/
theorem c1_fetch_quote_shape :
    (∀ data : UpstreamData,
        (processPayload data).map Prod.fst = SUPPORTED_CRYPTOS.map Prod.fst) ∧
    (∀ (data : UpstreamData) (pair id : String) (price : ℚ) (oc : Option ℚ),
        (pair, id) ∈ SUPPORTED_CRYPTOS →
        List.lookup id data = some { usd := some price, usd_24h_change := oc } →
        List.lookup pair (processPayload data) =
          some { price := price, change := price * oc.getD 0 / 100,
                 percent_change := oc.getD 0 }) ∧
    (∀ (data : UpstreamData) (pair id : String),
        (pair, id) ∈ SUPPORTED_CRYPTOS →
        List.lookup id data = none →
        List.lookup pair (processPayload data) =
          some { price := 0, change := 0, percent_change := 0 }) ∧
    (∀ (data : UpstreamData) (pair id : String) (oc : Option ℚ),
        (pair, id) ∈ SUPPORTED_CRYPTOS →
        List.lookup id data = some { usd := none, usd_24h_change := oc } →
        List.lookup pair (processPayload data) =
          some { price := 0, change := 0, percent_change := 0 }) ∧
    List.lookup "BTC/USD"
        (processPayload [("bitcoin", { usd := some 50000, usd_24h_change := some 2 })]) =
      some { price := 50000, change := 1000, percent_change := 2 } := by
  refine ⟨fun data => by simp [processPayload], ?_, ?_, ?_, ?_⟩
  · intro data pair id price oc hmem hl
    rw [lookup_processPayload data pair id hmem, hl]
    rfl
  · intro data pair id hmem hl
    rw [lookup_processPayload data pair id hmem, hl]
    rfl
  · intro data pair id oc hmem hl
    rw [lookup_processPayload data pair id hmem, hl]
    rfl
  · rw [lookup_processPayload _ "BTC/USD" "bitcoin" (by simp [SUPPORTED_CRYPTOS])]
    show some (quoteOf (some { usd := some 50000, usd_24h_change := some 2 })) = _
    unfold quoteOf
    norm_num

/-- C4: a call whose upstream request fails (transport error or decode
error — the `none` oracle) returns the cached mapping when one exists,
even a stale one, and the empty mapping otherwise; it records no
timestamp and leaves the cache unchanged. Totality of the model embodies
that neither exception propagates. -/
theorem c4_failure_fallback :
    ∀ (st : GState) (a : ℚ),
      (get_market_prices_coingecko st a none).result =
          (match st.cache with
           | some (d, _) => d
           | none => []) ∧
      (get_market_prices_coingecko st a none).appended = false ∧
      (get_market_prices_coingecko st a none).state.cache = st.cache := by
  intro st a
  unfold get_market_prices_coingecko fetchMiss
  rcases st.cache with _ | ⟨d, ct⟩
  · exact ⟨rfl, rfl, rfl⟩
  · dsimp only
    split
    · exact ⟨rfl, rfl, rfl⟩
    · exact ⟨rfl, rfl, rfl⟩

/-- C8 (amended): every call is admitted — the limiter only delays, the
post-wait clock is never before the arrival — but the timestamp is
recorded exactly when the upstream fetch is issued and succeeds: a
cache-served call or a failed fetch records nothing, so the record
happens after the upstream call, not before it proceeds. -/
theorem c8_admission_amended :
    ∀ (st : GState) (a : ℚ) (u : Option UpstreamData),
      a ≤ (get_market_prices_coingecko st a u).finish ∧
      (get_market_prices_coingecko st a u).appended =
        ((get_market_prices_coingecko st a u).calledUpstream && u.isSome) ∧
      (get_market_prices_coingecko st a u).state.timestamps =
        evictTs st.timestamps a ++
          (if (get_market_prices_coingecko st a u).appended then
            [(get_market_prices_coingecko st a u).finish]
          else []) := by
  intro st a u
  unfold get_market_prices_coingecko fetchMiss
  rcases st.cache with _ | ⟨d, ct⟩
  · rcases u with _ | data
    · exact ⟨le_admitTime _ _, rfl, by simp⟩
    · exact ⟨le_admitTime _ _, rfl, by simp⟩
  · dsimp only
    split
    · exact ⟨le_admitTime _ _, rfl, by simp⟩
    · rcases u with _ | data
      · exact ⟨le_admitTime _ _, rfl, by simp⟩
      · exact ⟨le_admitTime _ _, rfl, by simp⟩

/-- C8 counterexample: a call whose fetch fails is admitted, issues the
upstream request, and records nothing into the rate window — so the
limiter does not "record the current time before the call proceeds". -/
theorem c8_record_after_cex :
    (get_market_prices_coingecko GState.init 0 none).calledUpstream = true ∧
    (get_market_prices_coingecko GState.init 0 none).appended = false ∧
    (get_market_prices_coingecko GState.init 0 none).state.timestamps = [] :=
  ⟨rfl, rfl, rfl⟩

/-! ## C5, C6, C7 -/

def priceKeys : List String := ["entry", "tp1", "tp2", "tp3", "sl"]

/-- The payload holds a nonnegative number under key `k`. -/
def nonnegNumAt (fs : List (String × JVal)) (k : String) : Bool :=
  match List.lookup k fs with
  | some (JVal.num q) => decide (0 ≤ q)
  | _ => false

/-- C5 (amended): the parse step is total and every payload it returns —
AI-supplied or fallback — carries all eight required keys; on the
fallback paths the numeric price fields are nonnegative whenever the
fallback price is. The claim's further assertion that numeric fields are
always ≥ 0 fails: AI-supplied values pass through unvalidated
(`c5_negative_passthrough_cex`). -/
theorem c5_parse_total_amended :
    ∀ (raw : String) (fallback_price : ℚ), 0 ≤ fallback_price →
      requiredKeys.all (fun k => hasKey (parseAnalysisData raw fallback_price) k) = true ∧
      (parseOutcome raw = none →
        priceKeys.all (fun k => nonnegNumAt (parseAnalysisData raw fallback_price) k) = true) := by
  intro raw p hp
  constructor
  · rcases ho : parseOutcome raw with _ | fs
    · have he : parseAnalysisData raw p = fallbackData p := by
        rw [parseAnalysisData_eq_outcome, ho]
        rfl
      rw [he]
      rfl
    · have he : parseAnalysisData raw p = fs := by
        rw [parseAnalysisData_eq_outcome, ho]
        rfl
      rw [he]
      exact parseOutcome_keys raw fs ho
  · intro hnone
    have he : parseAnalysisData raw p = fallbackData p := by
      rw [parseAnalysisData_eq_outcome, hnone]
      rfl
    rw [he]
    have h1 : 0 ≤ pyRound4 p := pyRound4_nonneg p hp
    have h2 : 0 ≤ pyRound4 (p * 1.001) := pyRound4_nonneg _ (by positivity)
    have h3 : 0 ≤ pyRound4 (p * 1.002) := pyRound4_nonneg _ (by positivity)
    have h4 : 0 ≤ pyRound4 (p * 1.003) := pyRound4_nonneg _ (by positivity)
    have h5 : 0 ≤ pyRound4 (p * 0.999) := pyRound4_nonneg _ (by positivity)
    simp [priceKeys, nonnegNumAt, fallbackData, lookup_cons_eq_if, h1, h2, h3, h4, h5]

/-- C5 witness: the empty response with fallback price 0 takes the
fallback path and satisfies the amended contract. -/
theorem c5_parse_total_amended_witness :
    requiredKeys.all (fun k => hasKey (parseAnalysisData "" 0) k) = true ∧
    (parseOutcome "" = none →
      priceKeys.all (fun k => nonnegNumAt (parseAnalysisData "" 0) k) = true) :=
  c5_parse_total_amended "" 0 (le_refl 0)

def c5raw : String :=
  "```json\n\x7b\"signal\": \"BUY\", \"confidence\": \"80%\", \"entry\": -1, \"tp1\": 2, \"tp2\": 3, \"tp3\": 4, \"sl\": 1, \"rr_ratio\": \"1:2\"\x7d\n```"

set_option maxRecDepth 40000 in
/-- C5 counterexample: a well-formed delimited block carrying all eight
keys but a negative entry price is returned as-is, so the claim's
"all numeric price fields are ≥ 0" fails even though the fallback price
(100) is nonnegative. -/
theorem c5_negative_passthrough_cex :
    List.lookup "entry" (parseAnalysisData c5raw 100) = some (JVal.num (-1)) ∧
    ¬ ((0 : ℚ) ≤ -1) ∧ (0 : ℚ) ≤ 100 := by
  refine ⟨rfl, by norm_num, by norm_num⟩

/-- C6: when the raw text contains a well-formed delimited block that
decodes to an object carrying all eight required keys, the parse step
returns exactly the decoded fields, unmodified — no arithmetic, rounding
or substitution touches any AI-supplied value. -/
theorem c6_roundtrip :
    ∀ (raw pre blk post : String) (fs : List (String × JVal)) (fallback_price : ℚ),
      findJsonBlock raw = some (pre, blk, post) →
      jsonLoads blk = some (JVal.obj fs) →
      requiredKeys.all (fun k => hasKey fs k) = true →
      parseAnalysisData raw fallback_price = fs := by
  intro raw pre blk post fs p hb hj hk
  have ho : parseOutcome raw = some fs := by
    unfold parseOutcome
    rw [hb]
    simp only [hj, hk, if_true]
  rw [parseAnalysisData_eq_outcome, ho]
  rfl

def w6blk : String :=
  "\x7b\"signal\": \"BUY\", \"confidence\": \"75%\", \"entry\": 100, \"tp1\": 101, \"tp2\": 102, \"tp3\": 103, \"sl\": 99, \"rr_ratio\": \"1:2.0\"\x7d"

def w6raw : String :=
  "Intro\n```json\n\x7b\"signal\": \"BUY\", \"confidence\": \"75%\", \"entry\": 100, \"tp1\": 101, \"tp2\": 102, \"tp3\": 103, \"sl\": 99, \"rr_ratio\": \"1:2.0\"\x7d\n```\nOutro"

def w6fields : List (String × JVal) :=
  [("signal", JVal.str "BUY"), ("confidence", JVal.str "75%"),
   ("entry", JVal.num 100), ("tp1", JVal.num 101), ("tp2", JVal.num 102),
   ("tp3", JVal.num 103), ("sl", JVal.num 99), ("rr_ratio", JVal.str "1:2.0")]

set_option maxRecDepth 40000 in
/-- C6 witness: a concrete response with text around a complete block
round-trips to exactly the decoded fields. -/
theorem c6_roundtrip_witness : parseAnalysisData w6raw 100 = w6fields :=
  c6_roundtrip w6raw "Intro\n" w6blk "\nOutro" w6fields 100 rfl rfl rfl

/-- C7: whenever no delimited block is found, or it fails to decode, or
the decoded record misses a required key (`parseOutcome raw = none`),
the payload is the deterministic fallback: NEUTRAL signal, "N/A"
confidence, entry = rounded fallback price, take-profits scaled up by
0.1%/0.2%/0.3%, stop loss scaled down by 0.1%, ratio "1:1.0"; at
fallback price 100 this gives entry = 100, tp1 > 100, sl < 100. -/
theorem c7_fallback_payload :
    ∀ (raw : String) (fallback_price : ℚ),
      parseOutcome raw = none →
      List.lookup "signal" (parseAnalysisData raw fallback_price) = some (JVal.str "NEUTRAL") ∧
      List.lookup "confidence" (parseAnalysisData raw fallback_price) = some (JVal.str "N/A") ∧
      List.lookup "entry" (parseAnalysisData raw fallback_price) =
        some (JVal.num (pyRound4 fallback_price)) ∧
      List.lookup "tp1" (parseAnalysisData raw fallback_price) =
        some (JVal.num (pyRound4 (fallback_price * 1.001))) ∧
      List.lookup "tp2" (parseAnalysisData raw fallback_price) =
        some (JVal.num (pyRound4 (fallback_price * 1.002))) ∧
      List.lookup "tp3" (parseAnalysisData raw fallback_price) =
        some (JVal.num (pyRound4 (fallback_price * 1.003))) ∧
      List.lookup "sl" (parseAnalysisData raw fallback_price) =
        some (JVal.num (pyRound4 (fallback_price * 0.999))) ∧
      List.lookup "rr_ratio" (parseAnalysisData raw fallback_price) =
        some (JVal.str "1:1.0") ∧
      (fallback_price = 100 →
        pyRound4 fallback_price = 100 ∧
        100 < pyRound4 (fallback_price * 1.001) ∧
        pyRound4 (fallback_price * 0.999) < 100) := by
  intro raw p h
  have he : parseAnalysisData raw p = fallbackData p := by
    rw [parseAnalysisData_eq_outcome, h]
    rfl
  rw [he]
  refine ⟨rfl, rfl, rfl, rfl, rfl, rfl, rfl, rfl, ?_⟩
  rintro rfl
  refine ⟨?_, ?_, ?_⟩
  · have h1 : (100 : ℚ) * 10000 = ((1000000 : ℤ) : ℚ) := by norm_num
    unfold pyRound4
    rw [h1, roundHalfEven_intCast]
    norm_num
  · have h1 : (100 : ℚ) * 1.001 * 10000 = ((1001000 : ℤ) : ℚ) := by norm_num
    unfold pyRound4
    rw [h1, roundHalfEven_intCast]
    norm_num
  · have h1 : (100 : ℚ) * 0.999 * 10000 = ((999000 : ℤ) : ℚ) := by norm_num
    unfold pyRound4
    rw [h1, roundHalfEven_intCast]
    norm_num

/-- C7 witness: a concrete blockless response at fallback price 100. -/
theorem c7_fallback_payload_witness :
    List.lookup "signal" (parseAnalysisData "plain text, no block" 100) =
      some (JVal.str "NEUTRAL") ∧
    List.lookup "entry" (parseAnalysisData "plain text, no block" 100) =
      some (JVal.num (pyRound4 100)) :=
  ⟨(c7_fallback_payload "plain text, no block" 100 rfl).1,
   (c7_fallback_payload "plain text, no block" 100 rfl).2.2.1⟩


/-! ## C9, C10 -/

/-- C9 (amended): `log_trade` validates only the presence of the five
required fields and the float-parsability of the three numeric ones;
an accepted (201) request's stored `trade_type` — and `pair` — is
exactly the supplied value, with no `{BUY, SELL}` restriction
(`c9_trade_type_cex`). -/
theorem c9_trade_type_amended :
    ∀ (d : List (String × JVal)) (p : JVal) (e x l : ℚ) (tt : JVal),
      log_trade (some d) = LogResult.created p e x l tt →
      tt = dGet d "trade_type" ∧ p = dGet d "pair" := by
  intro d p e x l tt h
  replace h : log_trade_body d = LogResult.created p e x l tt := h
  unfold log_trade_body at h
  repeat' split at h
  all_goals first
    | exact ⟨rfl, rfl⟩
    | (injection h with h1 h2 h3 h4 h5
       exact ⟨h5.symm, h1.symm⟩)
    | injection h

def w9 : List (String × JVal) :=
  [("pair", JVal.str "BTC/USD"), ("entry_price", JVal.num 1),
   ("exit_price", JVal.num 2), ("profit_loss", JVal.num 1),
   ("trade_type", JVal.str "BUY")]

/-- C9 witness: a concrete accepted request stores its own trade_type
and pair verbatim. -/
theorem c9_trade_type_amended_witness :
    JVal.str "BUY" = dGet w9 "trade_type" ∧ JVal.str "BTC/USD" = dGet w9 "pair" :=
  c9_trade_type_amended w9 (JVal.str "BTC/USD") 1 2 1 (JVal.str "BUY") rfl

def w9h : List (String × JVal) :=
  [("pair", JVal.str "BTC/USD"), ("entry_price", JVal.num 10),
   ("exit_price", JVal.num 12), ("profit_loss", JVal.num 2),
   ("trade_type", JVal.str "HOLD")]

/-- C9 counterexample: a request with trade_type "HOLD" — neither BUY
nor SELL — is accepted with 201 and stored verbatim. -/
theorem c9_trade_type_cex :
    log_trade (some w9h) =
      LogResult.created (JVal.str "BTC/USD") 10 12 2 (JVal.str "HOLD") ∧
    JVal.str "HOLD" ≠ JVal.str "BUY" ∧ JVal.str "HOLD" ≠ JVal.str "SELL" := by
  refine ⟨rfl, ?_, ?_⟩ <;> intro hc <;> injection hc with hs <;> exact absurd hs (by decide)

/-- The loop's presence condition for one symbol's coin record. -/
def coinRecOk (info : CoinInfo) (data : List (String × JVal)) : Bool :=
  match List.lookup info.id data with
  | some v => jHasKey v info.vs_currency && jHasKey v "last_updated_at"
  | none => false

theorem cryptoStep_store_configured (data : List (String × JVal)) (symbol : String)
    (e : CPrice) (h : cryptoStep data symbol = CStepRes.store e) :
    (List.lookup symbol coin_map).isSome = true := by
  unfold cryptoStep at h
  split at h
  · cases h
  · rename_i info heq
    rw [heq]
    rfl

theorem cryptoStep_skip_of_bad (data : List (String × JVal)) (s : String) (info : CoinInfo)
    (hmap : List.lookup s coin_map = some info) (hbad : coinRecOk info data = false) :
    cryptoStep data s = CStepRes.skip := by
  unfold coinRecOk at hbad
  simp only [cryptoStep, hmap]
  rcases hdata : List.lookup info.id data with _ | coinVal
  · rfl
  · simp only [hdata] at hbad
    simp [hbad]

theorem cryptoLoop_mem (data : List (String × JVal)) :
    ∀ (l : List String) (acc : List (String × CPrice)) (s : String),
      (List.lookup s (cryptoLoop data l acc)).isSome = true →
      (List.lookup s acc).isSome = true ∨ (s ∈ l ∧ (List.lookup s coin_map).isSome = true) := by
  intro l
  induction l with
  | nil => intro acc s h; exact Or.inl h
  | cons symbol rest ih =>
    intro acc s h
    unfold cryptoLoop at h
    rcases hstep : cryptoStep data symbol with _ | _ | e
    all_goals rw [hstep] at h
    · rcases ih acc s h with h2 | ⟨h2, h3⟩
      · exact Or.inl h2
      · exact Or.inr ⟨List.mem_cons_of_mem _ h2, h3⟩
    · exact Or.inl h
    · rcases ih _ s h with h2 | ⟨h2, h3⟩
      · rw [lookup_insertKV] at h2
        by_cases hss : s = symbol
        · subst hss
          exact Or.inr ⟨List.mem_cons_self _ _, cryptoStep_store_configured data s e hstep⟩
        · rw [if_neg hss] at h2
          exact Or.inl h2
      · exact Or.inr ⟨List.mem_cons_of_mem _ h2, h3⟩

theorem cryptoLoop_omits (data : List (String × JVal)) (s : String)
    (hskip : cryptoStep data s = CStepRes.skip) :
    ∀ (l : List String) (acc : List (String × CPrice)),
      List.lookup s (cryptoLoop data l acc) = List.lookup s acc := by
  intro l
  induction l with
  | nil => intro acc; rfl
  | cons symbol rest ih =>
    intro acc
    unfold cryptoLoop
    rcases hstep : cryptoStep data symbol with _ | _ | e
    · exact ih acc
    · rfl
    · rw [ih, lookup_insertKV]
      have hss : s ≠ symbol := by
        intro hc
        subst hc
        rw [hskip] at hstep
        cases hstep
      rw [if_neg hss]

/-- C10: `get_crypto_prices` returns only configured input symbols (its
keys are a subset of the input ∩ coin map); with no configured symbol it
returns the empty mapping without issuing any HTTP request; on a
transport or decode failure it returns the mapping built so far (empty —
the failure precedes the loop) instead of raising; and a configured
symbol whose upstream record is absent or lacks the price-in-currency or
`last_updated_at` field is omitted outright, with no zero-valued
substitute. -/
theorem c10_crypto_prices_shape :
    ∀ (symbols : List String) (upstream : Option (List (String × JVal))),
      (∀ s : String,
        (List.lookup s (get_crypto_prices symbols upstream).data).isSome = true →
        s ∈ symbols ∧ (List.lookup s coin_map).isSome = true) ∧
      ((symbols.filterMap (fun s => (List.lookup s coin_map).map (fun i => i.id))).isEmpty = true →
        (get_crypto_prices symbols upstream).data = [] ∧
        (get_crypto_prices symbols upstream).calledUpstream = false) ∧
      (get_crypto_prices symbols none).data = [] ∧
      (∀ (data : List (String × JVal)) (s : String) (info : CoinInfo),
        upstream = some data →
        List.lookup s coin_map = some info →
        coinRecOk info data = false →
        List.lookup s (get_crypto_prices symbols upstream).data = none) := by
  intro symbols upstream
  refine ⟨?_, ?_, ?_, ?_⟩
  · intro s h
    simp only [get_crypto_prices] at h
    by_cases hie :
        (symbols.filterMap (fun s => (List.lookup s coin_map).map (fun i => i.id))).isEmpty = true
    · rw [if_pos hie] at h
      simp [List.lookup] at h
    · rw [if_neg hie] at h
      rcases upstream with _ | data
      · simp [List.lookup] at h
      · rcases cryptoLoop_mem data symbols [] s h with h2 | h2
        · simp [List.lookup] at h2
        · exact h2
  · intro hempty
    simp only [get_crypto_prices]
    rw [if_pos hempty]
    exact ⟨rfl, rfl⟩
  · simp only [get_crypto_prices]
    by_cases hie :
        (symbols.filterMap (fun s => (List.lookup s coin_map).map (fun i => i.id))).isEmpty = true
    · rw [if_pos hie]
    · rw [if_neg hie]
  · intro data s info hup hmap hbad
    subst hup
    simp only [get_crypto_prices]
    by_cases hie :
        (symbols.filterMap (fun s => (List.lookup s coin_map).map (fun i => i.id))).isEmpty = true
    · rw [if_pos hie]
      rfl
    · rw [if_neg hie]
      exact cryptoLoop_omits data s (cryptoStep_skip_of_bad data s info hmap hbad) symbols []

/-! ## C2: the rate window along a trace -/

theorem sorted_evictTs (a : ℚ) :
    ∀ l : List ℚ, l.Sorted (· ≤ ·) →
      evictTs l a = l.filter (fun t => decide (a - ONE_MINUTE ≤ t)) := by
  intro l
  induction l with
  | nil => intro _; rfl
  | cons h t ih =>
    intro hs
    rw [List.sorted_cons] at hs
    obtain ⟨hall, hst⟩ := hs
    by_cases hc : h < a - ONE_MINUTE
    · have d1 : decide (h < a - ONE_MINUTE) = true := decide_eq_true hc
      have d2 : decide (a - ONE_MINUTE ≤ h) = false := decide_eq_false (not_le.mpr hc)
      unfold evictTs at ih ⊢
      rw [List.dropWhile_cons, List.filter_cons, d1, d2]
      rw [if_pos rfl, if_neg (show ¬ (false = true) by decide)]
      exact ih hst
    · have hge : a - ONE_MINUTE ≤ h := not_lt.mp hc
      have d1 : decide (h < a - ONE_MINUTE) = false := decide_eq_false hc
      have d2 : decide (a - ONE_MINUTE ≤ h) = true := decide_eq_true hge
      unfold evictTs
      rw [List.dropWhile_cons, List.filter_cons, d1, d2]
      rw [if_neg (show ¬ (false = true) by decide), if_pos rfl]
      congr 1
      symm
      rw [List.filter_eq_self]
      intro b hb
      exact decide_eq_true (le_trans hge (hall b hb))

theorem evictTs_mem (l : List ℚ) (hs : l.Sorted (· ≤ ·)) (t0 a : ℚ)
    (hle : ∀ t ∈ l, t ≤ t0) (ht0 : t0 ≤ a) :
    ∀ t ∈ evictTs l a, a - ONE_MINUTE ≤ t ∧ t ≤ a := by
  intro t ht
  rw [sorted_evictTs a l hs] at ht
  rw [List.mem_filter] at ht
  obtain ⟨hmem, hdec⟩ := ht
  exact ⟨of_decide_eq_true hdec, le_trans (hle t hmem) ht0⟩

theorem evictTs_sublist (l : List ℚ) (a : ℚ) : (evictTs l a).Sublist l :=
  List.dropWhile_sublist _

theorem evictTs_sorted (l : List ℚ) (hs : l.Sorted (· ≤ ·)) (a : ℚ) :
    (evictTs l a).Sorted (· ≤ ·) :=
  hs.sublist (evictTs_sublist l a)

theorem Gaps10_tail (x : ℚ) (l : List ℚ) (h : Gaps10 (x :: l)) : Gaps10 l := by
  cases l with
  | nil => trivial
  | cons y r => exact h.2

theorem Gaps10_head_le (x : ℚ) (l : List ℚ) :
    Gaps10 (x :: l) → ∀ y ∈ l, x + CACHE_DURATION ≤ y := by
  induction l generalizing x with
  | nil => intro _ y hy; cases hy
  | cons z r ih =>
    intro h y hy
    rcases List.mem_cons.mp hy with rfl | hy2
    · exact h.1
    · have hz := ih z h.2 y hy2
      have hx := h.1
      have hd : (0 : ℚ) ≤ CACHE_DURATION := by norm_num [CACHE_DURATION]
      linarith

theorem Gaps10_append (x : ℚ) :
    ∀ l : List ℚ, Gaps10 l →
      (∀ y : ℚ, l.getLast? = some y → y + CACHE_DURATION ≤ x) →
      Gaps10 (l ++ [x]) := by
  intro l
  induction l with
  | nil => intro _ _; trivial
  | cons h t ih =>
    intro hg hlast
    cases t with
    | nil => exact ⟨hlast h rfl, trivial⟩
    | cons z r =>
      refine ⟨hg.1, ih hg.2 ?_⟩
      intro y hy
      exact hlast y (by rw [List.getLast?_cons_cons]; exact hy)

theorem count_le_of_gaps_aux :
    ∀ (l : List ℚ) (n : ℕ) (lb B : ℚ), Gaps10 l →
      (∀ x ∈ l, lb ≤ x) → B < lb + CACHE_DURATION * (n : ℚ) →
      (l.countP (fun t => decide (t ≤ B))) ≤ n := by
  intro l
  induction l with
  | nil => intro n lb B _ _ _; simp
  | cons h t ih =>
    intro n lb B hg hall hB
    by_cases hc : h ≤ B
    · have hlb : lb ≤ h := hall h (List.mem_cons_self h t)
      have hn : n ≠ 0 := by
        intro h0
        subst h0
        push_cast at hB
        have hd : (0 : ℚ) ≤ CACHE_DURATION := by norm_num [CACHE_DURATION]
        linarith
      obtain ⟨m, rfl⟩ := Nat.exists_eq_succ_of_ne_zero hn
      rw [List.countP_cons, if_pos (decide_eq_true hc)]
      have htail : (t.countP (fun t => decide (t ≤ B))) ≤ m := by
        apply ih m (h + CACHE_DURATION) B (Gaps10_tail h t hg) (Gaps10_head_le h t hg)
        push_cast at hB ⊢
        linarith
      omega
    · rw [List.countP_cons, if_neg (by simpa using hc)]
      have := ih n lb B (Gaps10_tail h t hg) (fun x hx => hall x (List.mem_cons_of_mem h hx)) hB
      omega

theorem window_count_le (s : ℚ) :
    ∀ l : List ℚ, Gaps10 l →
      (l.countP (fun t => decide (s ≤ t) && decide (t ≤ s + ONE_MINUTE))) ≤ 7 := by
  intro l
  induction l with
  | nil => intro _; simp
  | cons h t ih =>
    intro hg
    by_cases hpred : (decide (s ≤ h) && decide (h ≤ s + ONE_MINUTE)) = true
    · rw [List.countP_cons, if_pos hpred]
      have hs : s ≤ h := of_decide_eq_true ((Bool.and_eq_true _ _).mp hpred).1
      have htail : (t.countP (fun t => decide (s ≤ t) && decide (t ≤ s + ONE_MINUTE))) ≤ 6 := by
        have hmono :
            (t.countP (fun t => decide (s ≤ t) && decide (t ≤ s + ONE_MINUTE))) ≤
              (t.countP (fun t => decide (t ≤ s + ONE_MINUTE))) := by
          apply List.countP_mono_left
          intro b _ hb
          exact ((Bool.and_eq_true _ _).mp hb).2
        have hbound :
            (t.countP (fun t => decide (t ≤ s + ONE_MINUTE))) ≤ 6 := by
          apply count_le_of_gaps_aux t 6 (h + CACHE_DURATION) (s + ONE_MINUTE)
            (Gaps10_tail h t hg) (Gaps10_head_le h t hg)
          push_cast
          norm_num [CACHE_DURATION, ONE_MINUTE]
          linarith
        omega
      omega
    · rw [List.countP_cons, if_neg hpred]
      have := ih (Gaps10_tail h t hg)
      omega

/-- The state invariant carried along a trace: the window is sorted and
bounded by the current clock, the recorded times `past` are at least
one cache window apart, and the cache timestamp is the last recorded
time (or the cache is empty and nothing was recorded). -/
structure TraceInv (t0 : ℚ) (st : GState) (past : List ℚ) : Prop where
  sorted : st.timestamps.Sorted (· ≤ ·)
  ts_le : ∀ t ∈ st.timestamps, t ≤ t0
  gaps : Gaps10 past
  link : (st.cache = none ∧ past = []) ∨
    (∃ d ct, st.cache = some (d, ct) ∧ past.getLast? = some ct)

theorem fetchMiss_some_eq (ts1 : List ℚ) (cache : Option (List (String × Quote) × ℚ))
    (now : ℚ) (data : UpstreamData) :
    fetchMiss ts1 cache now (some data) =
      { state := { timestamps := ts1 ++ [now], cache := some (processPayload data, now) },
        result := processPayload data, calledUpstream := true, appended := true,
        finish := now } := rfl

theorem fetchMiss_none_eq (ts1 : List ℚ) (cache : Option (List (String × Quote) × ℚ))
    (now : ℚ) :
    fetchMiss ts1 cache now none =
      { state := { timestamps := ts1, cache := cache },
        result := (match cache with | some (d, _) => d | none => []),
        calledUpstream := true, appended := false, finish := now } := rfl

theorem gmp_cache_none_eq (ts : List ℚ) (a : ℚ) (u : Option UpstreamData) :
    get_market_prices_coingecko { timestamps := ts, cache := none } a u =
      fetchMiss (evictTs ts a) none (admitTime (evictTs ts a) a) u := rfl

theorem gmp_cache_fresh_eq (ts : List ℚ) (d : List (String × Quote)) (ct a : ℚ)
    (u : Option UpstreamData)
    (h : admitTime (evictTs ts a) a - ct < CACHE_DURATION) :
    get_market_prices_coingecko { timestamps := ts, cache := some (d, ct) } a u =
      { state := { timestamps := evictTs ts a, cache := some (d, ct) },
        result := d, calledUpstream := false, appended := false,
        finish := admitTime (evictTs ts a) a } := by
  unfold get_market_prices_coingecko
  dsimp only
  rw [if_pos h]

theorem gmp_cache_stale_eq (ts : List ℚ) (d : List (String × Quote)) (ct a : ℚ)
    (u : Option UpstreamData)
    (h : ¬ (admitTime (evictTs ts a) a - ct < CACHE_DURATION)) :
    get_market_prices_coingecko { timestamps := ts, cache := some (d, ct) } a u =
      fetchMiss (evictTs ts a) (some (d, ct)) (admitTime (evictTs ts a) a) u := by
  unfold get_market_prices_coingecko
  dsimp only
  rw [if_neg h]

theorem sorted_append_singleton (l : List ℚ) (x : ℚ) (hs : l.Sorted (· ≤ ·))
    (hall : ∀ t ∈ l, t ≤ x) : (l ++ [x]).Sorted (· ≤ ·) := by
  apply List.pairwise_append.mpr
  refine ⟨hs, List.pairwise_singleton _ _, ?_⟩
  intro a ha b hb
  rw [List.mem_singleton] at hb
  subst hb
  exact hall a ha

theorem traceInv_step (t0 a : ℚ) (st : GState) (past : List ℚ) (u : Option UpstreamData)
    (hinv : TraceInv t0 st past) (ha : t0 ≤ a) :
    TraceInv (get_market_prices_coingecko st a u).finish
      (get_market_prices_coingecko st a u).state
      (past ++ (if (get_market_prices_coingecko st a u).appended = true
        then [(get_market_prices_coingecko st a u).finish] else [])) := by
  obtain ⟨ts, cache⟩ := st
  have hsorted := hinv.sorted
  have hle := hinv.ts_le
  have hgaps := hinv.gaps
  have hlink := hinv.link
  have hnow : a ≤ admitTime (evictTs ts a) a := le_admitTime _ _
  have hsort2 : (evictTs ts a).Sorted (· ≤ ·) := evictTs_sorted ts hsorted a
  have hle2 : ∀ t ∈ evictTs ts a, t ≤ admitTime (evictTs ts a) a := by
    intro t ht
    exact le_trans (le_trans (hle t ((evictTs_sublist ts a).subset ht)) ha) hnow
  rcases cache with _ | ⟨d, ct⟩
  · have hpast : past = [] := by
      rcases hlink with ⟨_, h2⟩ | ⟨d, ct, hc, _⟩
      · exact h2
      · exact Option.noConfusion hc
    rcases u with _ | data
    · rw [gmp_cache_none_eq, fetchMiss_none_eq]
      refine ⟨hsort2, hle2, ?_, ?_⟩
      · simpa using hgaps
      · subst hpast
        simp
    · rw [gmp_cache_none_eq, fetchMiss_some_eq]
      subst hpast
      refine ⟨?_, ?_, ?_, ?_⟩
      · exact sorted_append_singleton _ _ hsort2 hle2
      · intro t ht
        rcases List.mem_append.mp ht with h1 | h1
        · exact hle2 t h1
        · rw [List.mem_singleton] at h1
          subst h1
          exact le_refl _
      · exact trivial
      · exact Or.inr ⟨processPayload data, admitTime (evictTs ts a) a, rfl, by simp⟩
  · have hlast : past.getLast? = some ct := by
      rcases hlink with ⟨hc, _⟩ | ⟨d2, ct2, hc, hl⟩
      · exact Option.noConfusion hc
      · have h2 : ct2 = ct := by
          injection hc with hh
          injection hh with ha hb
          exact hb.symm
        rw [h2] at hl
        exact hl
    by_cases hfresh : admitTime (evictTs ts a) a - ct < CACHE_DURATION
    · rw [gmp_cache_fresh_eq ts d ct a u hfresh]
      refine ⟨hsort2, hle2, ?_, ?_⟩
      · simpa using hgaps
      · simp only [if_neg (by decide : ¬ (false = true)), List.append_nil]
        exact Or.inr ⟨d, ct, rfl, hlast⟩
    · rw [gmp_cache_stale_eq ts d ct a u hfresh]
      rcases u with _ | data
      · rw [fetchMiss_none_eq]
        refine ⟨hsort2, hle2, ?_, ?_⟩
        · simpa using hgaps
        · simp only [if_neg (by decide : ¬ (false = true)), List.append_nil]
          exact Or.inr ⟨d, ct, rfl, hlast⟩
      · rw [fetchMiss_some_eq]
        refine ⟨?_, ?_, ?_, ?_⟩
        · exact sorted_append_singleton _ _ hsort2 hle2
        · intro t ht
          rcases List.mem_append.mp ht with h1 | h1
          · exact hle2 t h1
          · rw [List.mem_singleton] at h1
            subst h1
            exact le_refl _
        · simp only [if_pos rfl]
          apply Gaps10_append _ past hgaps
          intro y hy
          rw [hlast] at hy
          injection hy with hy2
          subst hy2
          have : ct + CACHE_DURATION ≤ admitTime (evictTs ts a) a := by linarith [not_lt.mp hfresh]
          exact this
        · simp only [if_pos rfl]
          exact Or.inr ⟨processPayload data, admitTime (evictTs ts a) a, rfl, by simp⟩

theorem evict_facts (t0 a : ℚ) (st : GState) (hs : st.timestamps.Sorted (· ≤ ·))
    (hle : ∀ t ∈ st.timestamps, t ≤ t0) (ha : t0 ≤ a) :
    evictTs st.timestamps a = st.timestamps.filter (fun t => decide (a - ONE_MINUTE ≤ t)) ∧
    ∀ t ∈ evictTs st.timestamps a, a - ONE_MINUTE ≤ t ∧ t ≤ a :=
  ⟨sorted_evictTs a st.timestamps hs, evictTs_mem st.timestamps hs t0 a hle ha⟩

theorem appendedTimes_cons (o : FetchOut) (l : List FetchOut) :
    appendedTimes (o :: l) =
      (if o.appended = true then [o.finish] else []) ++ appendedTimes l := by
  unfold appendedTimes
  rw [List.filter_cons]
  by_cases h : o.appended = true
  · simp [h]
  · simp [h]

theorem runFetches_ok (calls : List (ℚ × Option UpstreamData)) :
    ∀ (t0 : ℚ) (st : GState) (past : List ℚ),
      TraceInv t0 st past → chronB t0 st calls = true →
      StepsOK st calls ∧ Gaps10 (past ++ appendedTimes (runFetches st calls)) := by
  induction calls with
  | nil =>
    intro t0 st past hinv _
    constructor
    · exact trivial
    · simpa [runFetches, appendedTimes] using hinv.gaps
  | cons c rest ih =>
    obtain ⟨a, u⟩ := c
    intro t0 st past hinv hchron
    unfold chronB at hchron
    rw [Bool.and_eq_true, decide_eq_true_eq] at hchron
    obtain ⟨ha, hrest⟩ := hchron
    have hstep := traceInv_step t0 a st past u hinv ha
    have hevict := evict_facts t0 a st hinv.sorted hinv.ts_le ha
    have hrec := ih _ _ _ hstep hrest
    constructor
    · exact ⟨hevict, hrec.1⟩
    · show Gaps10 (past ++ appendedTimes (runFetches st ((a, u) :: rest)))
      unfold runFetches
      rw [appendedTimes_cons, ← List.append_assoc]
      exact hrec.2

/-- C2 (amended): along every chronologically valid call sequence from
the initial state, timestamps older than one window before the arrival
are evicted before each admission check and every retained timestamp is
within `[arrival − window, arrival]`; and the limiter never records more
than the quota of successful upstream calls within any rolling window —
successful fetches are at least one cache window (10 s) apart, so at
most 7 ≤ 45 fall in any 60-second window. The original claim's bound on
all admitted upstream calls fails: failed fetches are never recorded and
are admitted without bound (`c2_rate_quota_cex`). -/
theorem c2_rate_window_amended :
    ∀ (calls : List (ℚ × Option UpstreamData)) (t0 : ℚ),
      chronB t0 GState.init calls = true →
      StepsOK GState.init calls ∧
      ∀ s : ℚ,
        ((appendedTimes (runFetches GState.init calls)).countP
          (fun t => decide (s ≤ t) && decide (t ≤ s + ONE_MINUTE))) ≤ MAX_CALLS_PER_MINUTE := by
  intro calls t0 h
  have hinv : TraceInv t0 GState.init [] := by
    refine ⟨List.sorted_nil, ?_, trivial, Or.inl ⟨rfl, rfl⟩⟩
    intro t ht
    cases ht
  have hrun := runFetches_ok calls t0 GState.init [] hinv h
  refine ⟨hrun.1, fun s => ?_⟩
  have hg : Gaps10 (appendedTimes (runFetches GState.init calls)) := by
    have := hrun.2
    simpa using this
  have h7 := window_count_le s _ hg
  have h45 : (7 : ℕ) ≤ MAX_CALLS_PER_MINUTE := by norm_num [MAX_CALLS_PER_MINUTE]
  omega

/-- C2 witness: a single failing call at time 0 forms a valid trace; the
amended window bounds hold on it (checked at the window starting at 0). -/
theorem c2_rate_window_amended_witness :
    chronB 0 GState.init [((0 : ℚ), (none : Option UpstreamData))] = true ∧
    StepsOK GState.init [((0 : ℚ), (none : Option UpstreamData))] ∧
    ((appendedTimes (runFetches GState.init [((0 : ℚ), (none : Option UpstreamData))])).countP
      (fun t => decide ((0 : ℚ) ≤ t) && decide (t ≤ 0 + ONE_MINUTE))) ≤ MAX_CALLS_PER_MINUTE :=
  ⟨by decide,
   (c2_rate_window_amended [((0 : ℚ), none)] 0 (by decide)).1,
   (c2_rate_window_amended [((0 : ℚ), none)] 0 (by decide)).2 0⟩

/-- C2 counterexample: 46 calls at time 0 whose fetches all fail form a
valid trace in which every call is admitted and issues an upstream
request at clock 0 — 46 upstream calls inside one rolling minute, above
the quota of 45 — because failed fetches are never recorded in the
window. -/
theorem c2_rate_quota_cex :
    chronB 0 GState.init (List.replicate 46 ((0 : ℚ), (none : Option UpstreamData))) = true ∧
    ((runFetches GState.init (List.replicate 46 ((0 : ℚ), (none : Option UpstreamData)))).countP
      (fun o => o.calledUpstream && decide (o.finish = 0))) = 46 ∧
    MAX_CALLS_PER_MINUTE < 46 := by
  exact ⟨by decide, by decide, by decide⟩

/-! ## C3 -/

/-- C3 (amended): a call that finds the cache fresh (at the post-wait
clock) returns the cached mapping, issues no upstream request, records
no timestamp and leaves the cache untouched — but it does not leave the
rate window untouched: expired timestamps are still evicted before the
cache check (and the rate-limit wait also precedes it), so the rate
window after the call is its evicted form, not its original form
(`c3_cache_hit_cex`). -/
theorem c3_cache_hit_amended :
    ∀ (st : GState) (a : ℚ) (u : Option UpstreamData) (d : List (String × Quote)) (ct : ℚ),
      st.cache = some (d, ct) →
      admitTime (evictTs st.timestamps a) a - ct < CACHE_DURATION →
      (get_market_prices_coingecko st a u).result = d ∧
      (get_market_prices_coingecko st a u).calledUpstream = false ∧
      (get_market_prices_coingecko st a u).appended = false ∧
      (get_market_prices_coingecko st a u).state.cache = st.cache ∧
      (get_market_prices_coingecko st a u).state.timestamps = evictTs st.timestamps a := by
  intro st a u d ct hc hfresh
  obtain ⟨ts, cache⟩ := st
  replace hc : cache = some (d, ct) := hc
  subst hc
  replace hfresh : admitTime (evictTs ts a) a - ct < CACHE_DURATION := hfresh
  rw [gmp_cache_fresh_eq ts d ct a u hfresh]
  exact ⟨rfl, rfl, rfl, rfl, rfl⟩

/-- C3 witness: a fresh-cache call at a concrete state. -/
theorem c3_cache_hit_amended_witness :
    (get_market_prices_coingecko { timestamps := [], cache := some ([], 0) } 0 none).result = [] ∧
    (get_market_prices_coingecko { timestamps := [], cache := some ([], 0) } 0 none).calledUpstream = false ∧
    (get_market_prices_coingecko { timestamps := [], cache := some ([], 0) } 0 none).appended = false ∧
    (get_market_prices_coingecko { timestamps := [], cache := some ([], 0) } 0 none).state.cache = some ([], 0) ∧
    (get_market_prices_coingecko { timestamps := [], cache := some ([], 0) } 0 none).state.timestamps = evictTs [] 0 :=
  c3_cache_hit_amended { timestamps := [], cache := some ([], 0) } 0 none [] 0 rfl
    (by norm_num [admitTime, evictTs, MAX_CALLS_PER_MINUTE, CACHE_DURATION])

def c3calls : List (ℚ × Option UpstreamData) :=
  [(0, some []), (55, some []), (61, some [])]

theorem c3s1 :
    get_market_prices_coingecko GState.init 0 (some []) =
      { state := { timestamps := [0], cache := some (processPayload [], 0) },
        result := processPayload [], calledUpstream := true, appended := true,
        finish := 0 } := rfl

theorem c3s2 :
    get_market_prices_coingecko
        { timestamps := [0], cache := some (processPayload [], 0) } 55 (some []) =
      { state := { timestamps := [0, 55], cache := some (processPayload [], 55) },
        result := processPayload [], calledUpstream := true, appended := true,
        finish := 55 } := by
  have hev : evictTs [0] 55 = [0] := by
    have t1 : decide ((0 : ℚ) < 55 - ONE_MINUTE) = false :=
      decide_eq_false (by norm_num [ONE_MINUTE])
    unfold evictTs
    rw [List.dropWhile_cons, t1, if_neg (show ¬ (false = true) by decide)]
  have hadm : admitTime [(0 : ℚ)] 55 = 55 := by
    unfold admitTime
    rw [if_neg (by norm_num [MAX_CALLS_PER_MINUTE])]
  have hst : ¬ (admitTime (evictTs [(0 : ℚ)] 55) 55 - 0 < CACHE_DURATION) := by
    rw [hev, hadm]
    norm_num [CACHE_DURATION]
  rw [gmp_cache_stale_eq [0] (processPayload []) 0 55 (some []) hst, fetchMiss_some_eq,
    hev, hadm]
  rfl

theorem c3s3 :
    get_market_prices_coingecko
        { timestamps := [0, 55], cache := some (processPayload [], 55) } 61 (some []) =
      { state := { timestamps := [55], cache := some (processPayload [], 55) },
        result := processPayload [], calledUpstream := false, appended := false,
        finish := 61 } := by
  have t1 : decide ((0 : ℚ) < 61 - ONE_MINUTE) = true :=
    decide_eq_true (by norm_num [ONE_MINUTE])
  have t2 : decide ((55 : ℚ) < 61 - ONE_MINUTE) = false :=
    decide_eq_false (by norm_num [ONE_MINUTE])
  have hev : evictTs [0, 55] 61 = [55] := by
    unfold evictTs
    rw [List.dropWhile_cons, t1, if_pos rfl, List.dropWhile_cons, t2,
      if_neg (show ¬ (false = true) by decide)]
  have hadm : admitTime [(55 : ℚ)] 61 = 61 := by
    unfold admitTime
    rw [if_neg (by norm_num [MAX_CALLS_PER_MINUTE])]
  have hfr : admitTime (evictTs [(0 : ℚ), 55] 61) 61 - 55 < CACHE_DURATION := by
    rw [hev, hadm]
    norm_num [CACHE_DURATION]
  rw [gmp_cache_fresh_eq [0, 55] (processPayload []) 55 61 (some []) hfr, hev, hadm]

/-- C3 counterexample: in the valid trace with successful fetches at
times 0 and 55 and a third call at 61, the third call finds the cache
fresh (61 − 55 < 10) and serves it without an upstream request — yet
the rate window changes from [0, 55] to [55]: the expired timestamp 0
is evicted by the limiter logic that runs before the cache check, so
"the rate window state is unchanged" fails. -/
theorem c3_cache_hit_cex :
    chronB 0 GState.init c3calls = true ∧
    (runFetches GState.init c3calls).map (fun o => o.state.timestamps) =
      [[0], [0, 55], [55]] ∧
    (runFetches GState.init c3calls).map (fun o => o.state.cache) =
      [some (processPayload [], 0), some (processPayload [], 55),
       some (processPayload [], 55)] ∧
    (runFetches GState.init c3calls).map (fun o => o.calledUpstream) =
      [true, true, false] ∧
    (61 : ℚ) - 55 < CACHE_DURATION := by
  refine ⟨?_, ?_, ?_, ?_, by norm_num [CACHE_DURATION]⟩
  · show chronB 0 GState.init c3calls = true
    simp only [c3calls, chronB, c3s1, c3s2, c3s3]
    decide
  · simp only [c3calls, runFetches, c3s1, c3s2, c3s3, List.map]
  · simp only [c3calls, runFetches, c3s1, c3s2, c3s3, List.map]
  · simp only [c3calls, runFetches, c3s1, c3s2, c3s3, List.map]
